import Mathlib

/-!
Verification development for the `hi_archive` repository
(`src/hi_rss_generator.py`, `src/parse_rss.py`).

The Python program crawls a chain of episode pages (Discovery), fans the
discovered work items out to a thread pool (Scheduler), enriches each item
(`generate_episode`), and finally sorts the results by index and writes a feed
(Assembler).  A companion script (`parse_rss.py`) reads a feed back and prints
its entries oldest-first.

This file gives a shallow embedding of those parts of the source:

* the HTTP layer: `get_page_from_url` (the `try`/`raise_for_status`/`except`
  logic of the source function of the same name) plus a model of the
  `urllib3` retry machinery configured by `retry_strategy` (that machinery is
  library code, not in the repository; it is modelled from the spec);
* Discovery: `get_episodes`, fuel-indexed, over an abstract web
  (`String → FetchOutcome`);
* Enrichment: `generate_episode` over the same abstract web;
* the Scheduler: a small-step machine over `SchedState` mirroring the
  `while future_to_episode:` loop of `main`, parameterised by a schedule that
  chooses when queue items arrive and which futures complete (and in which
  order they are iterated), capturing the nondeterminism of
  `concurrent.futures.wait`;
* the Assembler (`sortProcessed` / `assembleEpisodes`) and the companion
  parser (`parse_rss`).
-/

namespace HiArchive

/-! ## Data model -/

/-- The `EpisodeInfo` namedtuple of the source: `(index, title, url)`. -/
structure EpisodeInfo where
  index : Nat
  title : String
  url : String
deriving DecidableEq

/-- An `<a id="prevLink">` anchor; `href` is `none` when the anchor has no
`href` attribute (subscripting it then raises `KeyError`). -/
structure Anchor where
  href : Option String
deriving DecidableEq

/-- A content block (`div.sqs-block-content`) inside the body container. -/
structure Block where
  hasAudioEmbed : Bool
  noscript : Option String
  content : String
deriving DecidableEq

/-- The `div.sqs-audio-embed` element; `data_url` is `none` when the
`data-url` attribute is absent (subscripting `attrs` then raises `KeyError`). -/
structure AudioEmbed where
  data_url : Option String
deriving DecidableEq

/-- An HTTP response page, as far as the source reads it:
`status_code`/`reason` from `requests`, the rest are the BeautifulSoup
lookups performed by `get_episodes` and `generate_episode`; each is `none`
when the corresponding element/attribute is missing from the page. -/
structure Page where
  status_code : Nat
  reason : String
  title : Option String
  prevLink : Option Anchor
  metaAuthor : Option String
  metaUrl : Option String
  metaDatePublished : Option String
  bodyContent : Option (List Block)
  audioEmbed : Option AudioEmbed
deriving DecidableEq

/-- The result of `request_session.get`: either an exception at the
connection/retry level, or a response page (of any status). -/
inductive FetchOutcome where
  | error
  | page (p : Page)
deriving DecidableEq

/-- Python exception kinds that the source can raise per item. -/
inductive PyErr where
  | attributeError
  | typeError
  | keyError
  | mediaError
deriving DecidableEq

/-! ## Page Fetcher (`get_page_from_url`) -/

/-- The body of the source's `get_page_from_url`: `page.raise_for_status()`
raises for any status in `[400, 600)`; every exception (including a
connection/retry failure) is caught and turned into `None`; otherwise the
page object is returned.  The function never lets an exception escape. -/
def get_page_from_url (o : FetchOutcome) : Option Page :=
  match o with
  | .error => none
  | .page p => if 400 ≤ p.status_code ∧ p.status_code < 600 then none else some p

/-- Fetch a URL through an abstract web (the composition of
`request_session.get` and `get_page_from_url`). -/
def get_page (web : String → FetchOutcome) (url : String) : Option Page :=
  get_page_from_url (web url)

/-! ## Retry policy (`retry_strategy`) -/

/-- `status_forcelist=[429, 500, 502, 503, 504]` from `retry_strategy`. -/
def status_forcelist : List Nat := [429, 500, 502, 503, 504]

/-- `total=10` from `retry_strategy`: the maximum attempt count. -/
def retry_total : Nat := 10

/-- `backoff_factor=2` from `retry_strategy`. -/
def backoff_factor : Nat := 2

/-- What the server does on one attempt: a connection-level failure or a
response page. -/
inductive AttemptResult where
  | connFail
  | page (p : Page)
deriving DecidableEq

/-- A condition the configured `Retry` object retries on: a connection-level
error or a status in the forcelist. -/
def retryableAttempt : AttemptResult → Bool
  | .connFail => true
  | .page p => p.status_code ∈ status_forcelist

/-- Modelled from the spec: the `urllib3`/`requests` retry machinery driven by
`retry_strategy` is library code not present in the repository.  Per the
spec (4.1), it retries only on HTTP 429/500/502/503/504 and on
connection-level errors, sleeps an exponentially doubling backoff delay
between attempts, and is capped at a maximum attempt count (`total = 10`);
a non-retryable response is returned immediately, and exhausting the cap
raises (surfacing as `FetchOutcome.error`).  Returns the outcome, the number
of attempts made, and the list of backoff delays slept. -/
def sessionGetAux (server : String → Nat → AttemptResult) (url : String) :
    Nat → Nat → FetchOutcome × Nat × List Nat
  | 0, _ => (.error, 0, [])
  | fuel + 1, k =>
    let a := server url k
    if retryableAttempt a then
      match fuel with
      | 0 => (.error, 1, [])
      | _ + 1 =>
        let r := sessionGetAux server url fuel (k + 1)
        (r.1, r.2.1 + 1, backoff_factor * 2 ^ k :: r.2.2)
    else
      match a with
      | .page p => (.page p, 1, [])
      | .connFail => (.error, 1, [])

/-- One `request_session.get(url, ...)` call with the mounted retry adapter. -/
def sessionGet (server : String → Nat → AttemptResult) (url : String) :
    FetchOutcome × Nat × List Nat :=
  sessionGetAux server url retry_total 0

/-! ## Discovery (`get_episodes`) -/

/-- `base_url` of the source. -/
def base_url : String := "https://www.hellointernet.fm"

/-- The initial `episode_url` built from the start index. -/
def podcastUrl (i : Nat) : String :=
  base_url ++ "/podcast/" ++ toString i

/-- Python truthiness of the `end` argument: `None` and `0` are falsy. -/
def endTruthy : Option Nat → Bool
  | none => false
  | some e => e ≠ 0

/-- The `while` condition of `get_episodes`:
`(episode_index <= end if end else episode_url != None) and episode_url != None`. -/
def loopGuard (idx : Nat) (endI : Option Nat) (url : Option String) : Bool :=
  (if endTruthy endI then decide (idx ≤ endI.getD 0) else url.isSome) && url.isSome

/-- How a discovery walk ended: normal loop exit, an uncaught exception in the
producer, or fuel exhaustion (modelling a walk that has not yet finished). -/
inductive DiscOutcome where
  | ok
  | err (e : PyErr)
  | fuelOut
deriving DecidableEq

/-- The loop body of `get_episodes`, fuel-indexed.  Each iteration fetches the
current URL (a `None` page crashes the producer with `AttributeError` at
`episode_page.status_code`; a missing `h1.entry-title` crashes at `.text`),
puts `EpisodeInfo(episode_index, episode_title, episode_url)` on the queue,
then advances to `base_url + next_episode["href"]` (a `prevLink` anchor
without `href` raises `KeyError`) or to `None` when there is no anchor.
Returns the queued items and the way the loop ended. -/
def get_episodesAux (web : String → FetchOutcome) (endI : Option Nat) :
    Nat → Nat → Option String → List EpisodeInfo → List EpisodeInfo × DiscOutcome
  | 0, idx, url, acc =>
    if loopGuard idx endI url then (acc, .fuelOut) else (acc, .ok)
  | fuel + 1, idx, url, acc =>
    if loopGuard idx endI url then
      match url with
      | none => (acc, .ok)
      | some u =>
        match get_page_from_url (web u) with
        | none => (acc, .err .attributeError)
        | some page =>
          match page.title with
          | none => (acc, .err .attributeError)
          | some t =>
            let info : EpisodeInfo := ⟨idx, t, u⟩
            match page.prevLink with
            | none => get_episodesAux web endI fuel (idx + 1) none (acc ++ [info])
            | some a =>
              match a.href with
              | none => (acc ++ [info], .err .keyError)
              | some h =>
                get_episodesAux web endI fuel (idx + 1) (some (base_url ++ h))
                  (acc ++ [info])
    else (acc, .ok)

/-- The source's `get_episodes(start, end)`: walk the prev-link chain from
`podcastUrl start`, emitting work items onto the queue. -/
def get_episodes (web : String → FetchOutcome) (start : Nat) (endI : Option Nat)
    (fuel : Nat) : List EpisodeInfo × DiscOutcome :=
  get_episodesAux web endI fuel start (some (podcastUrl start)) []

/-! ## Enrichment (`generate_episode`) -/

/-- Media metadata obtained by `Media.create_from_server_response`. -/
structure MediaInfo where
  file_extension : String
  duration : Nat
deriving DecidableEq

/-- The podgen `Episode` object, restricted to the fields the source sets. -/
structure EpisodeObj where
  title : String
  authors : List String
  link : String
  summary : String
  publication_date : String
  media_url : String
  media_duration : Option Nat
  media_file : Option String
deriving DecidableEq

/-- The content-assembly loop of `generate_episode`: skip the block embedding
the audio player, wrap `noscript`-only content in `<p>` tags, and otherwise
append the block's `decode_contents()`. -/
def assembleContent (blocks : List Block) : String :=
  blocks.foldl
    (fun acc b =>
      if b.hasAudioEmbed then acc
      else
        match b.noscript with
        | some ns => acc ++ "<p>" ++ ns ++ "</p>"
        | none => acc ++ b.content)
    ""

/-- Zero-padding of `f"{index:03d}"`. -/
def pad3 (n : Nat) : String :=
  if n < 10 then "00" ++ toString n
  else if n < 100 then "0" ++ toString n
  else toString n

/-- The media file name `f"hello_internet_{index:03d}{ext}"`. -/
def mediaFileName (index : Nat) (ext : String) : String :=
  "hello_internet_" ++ pad3 index ++ ext

/-- The source's `generate_episode(episode_info, media_location)`.  A `None`
page raises `AttributeError` at `episode_page.status_code`; a missing
`meta` element raises `TypeError` when subscripted; a missing body container
raises `AttributeError` at `.find_all`; a missing audio embed raises
`AttributeError` at `.attrs`; a missing `data-url` attribute raises
`KeyError`; `mediaServer` models `Media.create_from_server_response` (and
the subsequent download / duration probe), which can fail with a network
error.  On success a populated `EpisodeObj` is returned. -/
def generate_episode (web : String → FetchOutcome)
    (mediaServer : String → Option MediaInfo) (episode_info : EpisodeInfo)
    (media_location : Option String) : Except PyErr EpisodeObj :=
  match get_page_from_url (web episode_info.url) with
  | none => .error .attributeError
  | some page =>
    match page.metaAuthor with
    | none => .error .typeError
    | some episode_author =>
      match page.metaUrl with
      | none => .error .typeError
      | some episode_link =>
        match page.metaDatePublished with
        | none => .error .typeError
        | some episode_datePublished =>
          match page.bodyContent with
          | none => .error .attributeError
          | some blocks =>
            let episode_content := assembleContent blocks
            match page.audioEmbed with
            | none => .error .attributeError
            | some embed =>
              match embed.data_url with
              | none => .error .keyError
              | some episode_media_url =>
                match mediaServer episode_media_url with
                | none => .error .mediaError
                | some m =>
                  let base : EpisodeObj :=
                    { title := episode_info.title
                      authors := [episode_author]
                      link := episode_link
                      summary := episode_content
                      publication_date := episode_datePublished
                      media_url := episode_media_url
                      media_duration := some m.duration
                      media_file := none }
                  match media_location with
                  | some loc =>
                    .ok { base with
                            media_file :=
                              some (loc ++ "/" ++
                                mediaFileName episode_info.index m.file_extension) }
                  | none => .ok base

/-! ## Scheduler / Coordinator (the `while future_to_episode:` loop of `main`)

The loop is driven by a schedule: per iteration, how many queued items the
producer thread has put onto `episode_queue` since the last look, and which
outstanding futures `concurrent.futures.wait` reports as done (in the order
the `for future in done:` loop visits them).  Enrichment futures are
identified by their position in the in-flight list. -/

/-- The producer's externally visible behaviour for one run: the work items it
puts on the queue, in order, and whether it then terminates with an
exception (`fails = true`) or returns normally. -/
structure ProducerEnv where
  toEmit : List EpisodeInfo
  fails : Bool
deriving DecidableEq

/-- The environment of a scheduler run: the producer behaviour and the
(deterministic for the run) outcome of enriching each work item. -/
structure SchedEnv where
  producer : ProducerEnv
  enrich : EpisodeInfo → Except PyErr EpisodeObj

/-- The scheduler's state at the top of the `while` loop.  `pending` are items
the producer has yet to put on the queue, `queue` is `episode_queue`,
`inFlight` the enrichment futures in `future_to_episode`, `producerLive`
whether the producer future is still in `future_to_episode`, and
`processed`/`failed` the two result lists.  `dispatched`/`resolved` count
enrichment futures ever submitted / ever popped (history, for stating the
registry invariant). -/
structure SchedState where
  pending : List EpisodeInfo
  queue : List EpisodeInfo
  inFlight : List EpisodeInfo
  producerLive : Bool
  processed : List (EpisodeInfo × EpisodeObj)
  failed : List (EpisodeInfo × PyErr)
  dispatched : Nat
  resolved : Nat
deriving DecidableEq

/-- A handle in `future_to_episode`: the producer future (mapped to the string
`"PRODUCER"`) or an enrichment future, selected by its position in the
in-flight list. -/
inductive Handle where
  | producer
  | task (i : Nat)
deriving DecidableEq

/-- One iteration of the schedule: how many freshly produced items arrive on
the queue, and the completed futures in iteration order. -/
structure Iter where
  arrivals : Nat
  done : List Handle
deriving DecidableEq

/-- The result of processing part of an iteration: continue, or abort the whole
run because the `raise` in the producer branch propagated. -/
inductive StepOut where
  | cont (st : SchedState)
  | fatal (st : SchedState)
deriving DecidableEq

/-- Remove the element at position `i`, returning it and the remainder
(mirrors `future_to_episode[future]` lookup plus `pop`). -/
def removeAt {α : Type} : List α → Nat → Option (α × List α)
  | [], _ => none
  | a :: rest, 0 => some (a, rest)
  | a :: rest, n + 1 => (removeAt rest n).map (fun p => (p.1, a :: p.2))

/-- Items the producer thread has put on `episode_queue` since the last
iteration become visible to the scheduler. -/
def arriveStep (st : SchedState) (k : Nat) : SchedState :=
  { st with
      queue := st.queue ++ st.pending.take k
      pending := st.pending.drop k }

/-- The `while not episode_queue.empty():` drain: every queued item is
submitted as a new enrichment future. -/
def drainStep (st : SchedState) : SchedState :=
  { st with
      inFlight := st.inFlight ++ st.queue
      queue := []
      dispatched := st.dispatched + st.queue.length }

/-- Process one completed future from `done` (the body of
`for future in done:`).  The producer future with an exception re-raises
(`raise Exception("Producer thread generated an exception") from e`),
aborting the loop before the future is popped; a normally returning
producer yields `None`, which fails the `isinstance(..., Episode)` check,
so nothing is recorded and the future is popped.  An enrichment future is
recorded into `failed` on exception or `processed` on success, then
popped.  A handle that is not outstanding is ignored (it cannot arise from
`concurrent.futures.wait`). -/
def processOne (env : SchedEnv) (st : SchedState) : Handle → StepOut
  | .producer =>
    if st.producerLive && st.pending.isEmpty then
      if env.producer.fails then .fatal st
      else .cont { st with producerLive := false }
    else .cont st
  | .task i =>
    match removeAt st.inFlight i with
    | none => .cont st
    | some (w, rest) =>
      let st' := { st with inFlight := rest, resolved := st.resolved + 1 }
      match env.enrich w with
      | .ok ep => .cont { st' with processed := st'.processed ++ [(w, ep)] }
      | .error e => .cont { st' with failed := st'.failed ++ [(w, e)] }

/-- Process the completed futures of one iteration in order, stopping at a
fatal producer error. -/
def processList (env : SchedEnv) (st : SchedState) : List Handle → StepOut
  | [] => .cont st
  | h :: hs =>
    match processOne env st h with
    | .fatal st' => .fatal st'
    | .cont st' => processList env st' hs

/-- One full iteration of the `while future_to_episode:` loop: wait (arrivals
happen while waiting), drain the queue into new futures, then process the
completed futures. -/
def iterStep (env : SchedEnv) (st : SchedState) (it : Iter) : StepOut :=
  processList env (drainStep (arriveStep st it.arrivals)) it.done

/-- `future_to_episode` is empty: the loop's exit condition. -/
def registryEmpty (st : SchedState) : Bool :=
  !st.producerLive && st.inFlight.isEmpty

/-- The number of entries in `future_to_episode`. -/
def registrySize (st : SchedState) : Nat :=
  (if st.producerLive then 1 else 0) + st.inFlight.length

/-- How a scheduler run ends: the loop exits with an empty registry, the
producer's exception propagates, or the given schedule is exhausted while
futures are still outstanding. -/
inductive RunResult where
  | completed (st : SchedState)
  | fatal (st : SchedState)
  | incomplete (st : SchedState)
deriving DecidableEq

/-- Run the scheduler loop under a schedule. -/
def runSched (env : SchedEnv) : List Iter → SchedState → RunResult
  | [], st => if registryEmpty st then .completed st else .incomplete st
  | it :: rest, st =>
    if registryEmpty st then .completed st
    else
      match iterStep env st it with
      | .fatal st' => .fatal st'
      | .cont st' => runSched env rest st'

/-- The state at `executor.submit(get_episodes, ...)`: only the producer
future is registered; nothing has been produced, dispatched or recorded. -/
def initState (env : SchedEnv) : SchedState :=
  { pending := env.producer.toEmit
    queue := []
    inFlight := []
    producerLive := true
    processed := []
    failed := []
    dispatched := 0
    resolved := 0 }

/-! ## Assembler -/

/-- Sorting key order of `processed_episodes.sort(key=lambda e: e[0].index)`. -/
def procLE (a b : EpisodeInfo × EpisodeObj) : Prop :=
  a.1.index ≤ b.1.index

instance : DecidableRel procLE := fun a b => Nat.decLe a.1.index b.1.index

instance : IsTotal (EpisodeInfo × EpisodeObj) procLE :=
  ⟨fun a b => Nat.le_total a.1.index b.1.index⟩

instance : IsTrans (EpisodeInfo × EpisodeObj) procLE :=
  ⟨fun _ _ _ => Nat.le_trans⟩

/-- `processed_episodes.sort(key=lambda episode: episode[0].index)` (a stable
sort by ascending index). -/
def sortProcessed (l : List (EpisodeInfo × EpisodeObj)) :
    List (EpisodeInfo × EpisodeObj) :=
  List.insertionSort procLE l

/-- `for episode in reversed(processed_episodes): podcast.episodes.append(episode[1])`
on a fresh podcast: the document's episode list, most recent first. -/
def assembleEpisodes (l : List (EpisodeInfo × EpisodeObj)) : List EpisodeObj :=
  ((sortProcessed l).reverse).map Prod.snd

/-! ## Companion utility (`parse_rss.py`) -/

/-- One `<item>` of the generated feed, as far as `parse_rss.py` reads it. -/
structure RssItem where
  title : String
  link : String
deriving DecidableEq

/-- What `podcast.rss_file` serialises of each episode, in list order. -/
def feedItems (eps : List EpisodeObj) : List RssItem :=
  eps.map (fun e => ⟨e.title, e.link⟩)

/-- One entry of the dictionary list printed by `parse_rss.py`. -/
structure ParsedEpisode where
  index : Nat
  title : String
  url : String
deriving DecidableEq

/-- The loop of `parse_rss.py`'s `main`:
`for index, episode in enumerate(reversed(episodes_rss), start=1): ...`. -/
def parse_rss (items : List RssItem) : List ParsedEpisode :=
  (List.enumFrom 1 items.reverse).map (fun p => ⟨p.1, p.2.title, p.2.link⟩)



deriving instance DecidableEq for Except

/-- The multiset of work items the scheduler is tracking, across all the
places an item can be: not yet produced, queued, in flight, or recorded. -/
def tracked (st : SchedState) : List EpisodeInfo :=
  st.pending ++ st.queue ++ st.inFlight ++ st.processed.map Prod.fst ++
    st.failed.map Prod.fst

/-- The loop invariant of the scheduler, as it holds at the top of each
iteration of `while future_to_episode:`. -/
structure Inv (env : SchedEnv) (st : SchedState) : Prop where
  perm : (tracked st).Perm env.producer.toEmit
  prodDone : st.producerLive = false → st.pending = [] ∧ env.producer.fails = false
  procOk : ∀ p ∈ st.processed, env.enrich p.1 = Except.ok p.2
  failErr : ∀ p ∈ st.failed, env.enrich p.1 = Except.error p.2
  ghost : st.inFlight.length + st.resolved = st.dispatched
  qEmpty : st.queue = []

/-- States reachable by continuing iterations of the scheduler loop. -/
inductive Reaches (env : SchedEnv) : SchedState → SchedState → Prop
  | refl (st : SchedState) : Reaches env st st
  | step (st st' st'' : SchedState) (it : Iter) : Reaches env st st' →
      registryEmpty st' = false → iterStep env st' it = .cont st'' →
      Reaches env st st''

/-- A default episode record (used only as the `getD` fallback). -/
def dummyInfo : EpisodeInfo := ⟨0, "", ""⟩

/-! ## Concrete fixtures: a two-page site, environments, schedules -/

/-- Page of episode 1 of the two-page test site: links back to episode 2. -/
def pageA : Page :=
  { status_code := 200, reason := "OK", title := some "Episode One",
    prevLink := some ⟨some "/podcast/2"⟩, metaAuthor := some "A",
    metaUrl := some "lnkA", metaDatePublished := some "d1",
    bodyContent := some [], audioEmbed := some ⟨some "mA"⟩ }

/-- Page of episode 2: the chain ends here (no previous-episode link). -/
def pageB : Page :=
  { status_code := 200, reason := "OK", title := some "Episode Two",
    prevLink := none, metaAuthor := some "B",
    metaUrl := some "lnkB", metaDatePublished := some "d2",
    bodyContent := some [⟨false, none, "hello"⟩], audioEmbed := some ⟨some "mB"⟩ }

/-- A two-page site: episode 1 links to episode 2; everything else errors. -/
def webW : String → FetchOutcome := fun u =>
  if u = podcastUrl 1 then .page pageA
  else if u = podcastUrl 2 then .page pageB
  else .error

/-- The first work item the two-page site yields. -/
def wA : EpisodeInfo := ⟨1, "Episode One", podcastUrl 1⟩

/-- The second work item the two-page site yields. -/
def wB : EpisodeInfo := ⟨2, "Episode Two", podcastUrl 2⟩

/-- Both work items, in discovery order. -/
def itemsW : List EpisodeInfo := [wA, wB]

/-- A completed episode object for item 1. -/
def epA : EpisodeObj :=
  ⟨"Episode One", ["A"], "lnkA", "", "d1", "mA", none, none⟩

/-- A completed episode object for item 2. -/
def epB : EpisodeObj :=
  ⟨"Episode Two", ["B"], "lnkB", "hello", "d2", "mB", none, none⟩

/-- Enrichment outcome table used by the completing runs. -/
def enrichW : EpisodeInfo → Except PyErr EpisodeObj :=
  fun w => if w.index = 1 then .ok epA else .ok epB

/-- Scheduler environment whose producer emits one item and succeeds. -/
def envDone : SchedEnv := ⟨⟨[wA], false⟩, enrichW⟩

/-- A schedule completing `envDone`. -/
def schedDone : List Iter := [⟨1, [.producer]⟩, ⟨0, [.task 0]⟩]

/-- The end state of that run. -/
def stDone : SchedState := ⟨[], [], [], false, [(wA, epA)], [], 1, 1⟩

/-- Environment emitting both items; the producer succeeds. -/
def envDone2 : SchedEnv := ⟨⟨itemsW, false⟩, enrichW⟩

/-- A schedule completing `envDone2`. -/
def schedDone2 : List Iter := [⟨2, [.producer]⟩, ⟨0, [.task 0, .task 0]⟩]

/-- The end state of that run. -/
def stDone2 : SchedState := ⟨[], [], [], false, [(wA, epA), (wB, epB)], [], 2, 2⟩

/-- Environment whose producer fails after emitting both items. -/
def envFail2 : SchedEnv := ⟨⟨itemsW, true⟩, enrichW⟩

/-- A schedule that dispatches both items and then drains the failed
producer future first. -/
def schedFail2 : List Iter := [⟨2, [.producer]⟩]

/-- The aborted state that run ends in: both enrichment futures dispatched,
nothing recorded. -/
def stFail2 : SchedState := ⟨[], [], itemsW, true, [], [], 2, 0⟩

/-- Environment with one item whose enrichment fails. -/
def envErr : SchedEnv := ⟨⟨[wA], false⟩, fun _ => .error .keyError⟩

/-- A schedule completing `envErr`. -/
def schedErr : List Iter := [⟨1, [.producer]⟩, ⟨0, [.task 0]⟩]

/-- The end state of that run: the failure recorded, nothing processed. -/
def stErr : SchedState := ⟨[], [], [], false, [], [(wA, .keyError)], 1, 1⟩

/-- A bare page answering 503 on every attempt. -/
def page503 : Page := ⟨503, "Service Unavailable", none, none, none, none, none, none, none⟩

/-- A bare 404 page. -/
def page404 : Page := ⟨404, "Not Found", none, none, none, none, none, none, none⟩

/-- A bare 410 page. -/
def page410 : Page := ⟨410, "Gone", none, none, none, none, none, none, none⟩

/-- A server that always answers 503. -/
def server503 : String → Nat → AttemptResult := fun _ _ => .page page503

/-- A server that always answers 404. -/
def server404 : String → Nat → AttemptResult := fun _ _ => .page page404

/-- A server that always answers 410. -/
def server410 : String → Nat → AttemptResult := fun _ _ => .page page410

/-- A web on which every fetch errors. -/
def webNone : String → FetchOutcome := fun _ => .error

/-- A media server on which every probe fails. -/
def mediaNone : String → Option MediaInfo := fun _ => none

/-! ## Scheduler lemmas -/

/-- Removing a position yields a permutation decomposition. -/
theorem removeAt_perm {α : Type} :
    ∀ (l : List α) (i : Nat) (w : α) (rest : List α),
      removeAt l i = some (w, rest) → l.Perm (w :: rest)
  | [], i, w, rest, h => by simp [removeAt] at h
  | a :: t, 0, w, rest, h => by
    simp only [removeAt, Option.some.injEq] at h
    injection h with h1 h2
    subst h1
    subst h2
    exact List.Perm.refl _
  | a :: t, n + 1, w, rest, h => by
    simp only [removeAt, Option.map_eq_some'] at h
    obtain ⟨⟨w', rest'⟩, hrec, heq⟩ := h
    injection heq with h1 h2
    subst h1
    subst h2
    exact ((removeAt_perm t n _ rest' hrec).cons a).trans (List.Perm.swap _ a rest')





/-- The invariant holds at `executor.submit(get_episodes, ...)`. -/
theorem inv_init (env : SchedEnv) : Inv env (initState env) := by
  constructor <;> simp [initState, tracked]

/-- Arrival of produced items followed by the queue drain preserves the
invariant. -/
theorem inv_arrive_drain (env : SchedEnv) (st : SchedState) (k : Nat)
    (h : Inv env st) : Inv env (drainStep (arriveStep st k)) := by
  obtain ⟨hperm, hprod, hok, herr, hghost, hq⟩ := h
  constructor
  · rw [List.perm_iff_count] at hperm ⊢
    intro a
    have hcount := hperm a
    have hsplit : List.count a (st.pending.take k) + List.count a (st.pending.drop k)
        = List.count a st.pending := by
      rw [← List.count_append, List.take_append_drop]
    simp only [tracked, hq, List.count_append, List.nil_append,
      List.count_nil] at hcount
    simp only [tracked, drainStep, arriveStep, hq, List.count_append,
      List.nil_append, List.count_nil]
    omega
  · intro hlive
    simp only [drainStep, arriveStep] at hlive ⊢
    rcases hprod hlive with ⟨hp, hf⟩
    simp [hp, hf]
  · simpa [drainStep, arriveStep] using hok
  · simpa [drainStep, arriveStep] using herr
  · simp only [drainStep, arriveStep, List.length_append]
    omega
  · simp [drainStep]

/-- Processing one completed future preserves the invariant when it does not
abort the run. -/
theorem inv_processOne (env : SchedEnv) (st st' : SchedState) (h : Handle)
    (hinv : Inv env st) (hstep : processOne env st h = .cont st') :
    Inv env st' := by
  obtain ⟨hperm, hprod, hok, herr, hghost, hq⟩ := hinv
  cases h with
  | producer =>
    cases hc : (st.producerLive && st.pending.isEmpty) with
    | false =>
      simp only [processOne, hc, Bool.false_eq_true, if_false,
        StepOut.cont.injEq] at hstep
      subst hstep
      exact ⟨hperm, hprod, hok, herr, hghost, hq⟩
    | true =>
      cases hf : env.producer.fails with
      | true => simp [processOne, hc, hf] at hstep
      | false =>
        simp only [processOne, hc, hf, if_true, Bool.false_eq_true, if_false,
          StepOut.cont.injEq] at hstep
        subst hstep
        have hpe : st.pending = [] := by
          have hc' := hc
          rw [Bool.and_eq_true] at hc'
          exact List.isEmpty_iff.1 hc'.2
        refine ⟨hperm, fun _ => ⟨hpe, hf⟩, hok, herr, hghost, hq⟩
  | task i =>
    cases hrem : removeAt st.inFlight i with
    | none =>
      simp only [processOne, hrem, StepOut.cont.injEq] at hstep
      subst hstep
      exact ⟨hperm, hprod, hok, herr, hghost, hq⟩
    | some p =>
      obtain ⟨w, rest⟩ := p
      have hrp : st.inFlight.Perm (w :: rest) := removeAt_perm _ _ _ _ hrem
      have hrl : st.inFlight.length = rest.length + 1 := by
        simpa using hrp.length_eq
      cases henr : env.enrich w with
      | ok ep =>
        simp only [processOne, hrem, henr, StepOut.cont.injEq] at hstep
        subst hstep
        constructor
        · rw [List.perm_iff_count] at hperm hrp ⊢
          intro a
          have h1 := hperm a
          have h2 := hrp a
          simp only [tracked, List.count_append, List.count_cons, List.map_append,
            List.map_cons, List.map_nil, List.count_nil, hq,
            List.count_nil] at h1 h2 ⊢
          omega
        · intro hlive; exact hprod hlive
        · intro p hp
          rcases List.mem_append.1 hp with hp | hp
          · exact hok p hp
          · simp only [List.mem_singleton] at hp
            subst hp
            exact henr
        · exact herr
        · simp only [List.length_append]
          omega
        · exact hq
      | error e =>
        simp only [processOne, hrem, henr, StepOut.cont.injEq] at hstep
        subst hstep
        constructor
        · rw [List.perm_iff_count] at hperm hrp ⊢
          intro a
          have h1 := hperm a
          have h2 := hrp a
          simp only [tracked, List.count_append, List.count_cons, List.map_append,
            List.map_cons, List.map_nil, List.count_nil, hq,
            List.count_nil] at h1 h2 ⊢
          omega
        · intro hlive; exact hprod hlive
        · exact hok
        · intro p hp
          rcases List.mem_append.1 hp with hp | hp
          · exact herr p hp
          · simp only [List.mem_singleton] at hp
            subst hp
            exact henr
        · simp only [List.length_append]
          omega
        · exact hq

/-- Processing a list of completed futures preserves the invariant. -/
theorem inv_processList (env : SchedEnv) :
    ∀ (hs : List Handle) (st st' : SchedState), Inv env st →
      processList env st hs = .cont st' → Inv env st'
  | [], st, st', hinv, hstep => by
    simp only [processList, StepOut.cont.injEq] at hstep
    subst hstep
    exact hinv
  | h :: hs, st, st', hinv, hstep => by
    simp only [processList] at hstep
    cases hone : processOne env st h with
    | fatal st₁ => rw [hone] at hstep; exact absurd hstep (by simp)
    | cont st₁ =>
      rw [hone] at hstep
      exact inv_processList env hs st₁ st' (inv_processOne env st st₁ h hinv hone) hstep

/-- One full loop iteration preserves the invariant. -/
theorem inv_iterStep (env : SchedEnv) (st st' : SchedState) (it : Iter)
    (hinv : Inv env st) (hstep : iterStep env st it = .cont st') : Inv env st' :=
  inv_processList env it.done _ st' (inv_arrive_drain env st it.arrivals hinv) hstep

/-- A run that exits the loop normally ends in an invariant state with an
empty registry. -/
theorem run_completed_inv (env : SchedEnv) :
    ∀ (sched : List Iter) (st st' : SchedState), Inv env st →
      runSched env sched st = .completed st' →
      Inv env st' ∧ registryEmpty st' = true
  | [], st, st', hinv, hrun => by
    simp only [runSched] at hrun
    by_cases hre : registryEmpty st
    · rw [if_pos hre] at hrun
      simp only [RunResult.completed.injEq] at hrun
      subst hrun
      exact ⟨hinv, hre⟩
    · rw [if_neg hre] at hrun
      exact absurd hrun (by simp)
  | it :: rest, st, st', hinv, hrun => by
    simp only [runSched] at hrun
    by_cases hre : registryEmpty st
    · rw [if_pos hre] at hrun
      simp only [RunResult.completed.injEq] at hrun
      subst hrun
      exact ⟨hinv, hre⟩
    · rw [if_neg hre] at hrun
      cases hstep : iterStep env st it with
      | fatal st₁ => rw [hstep] at hrun; exact absurd hrun (by simp)
      | cont st₁ =>
        rw [hstep] at hrun
        exact run_completed_inv env rest st₁ st'
          (inv_iterStep env st st₁ it hinv hstep) hrun

/-- The only fatal transition is the producer's `raise`: it requires the
producer future to have failed, and leaves the state as it was. -/
theorem processOne_fatal (env : SchedEnv) (st st' : SchedState) (h : Handle)
    (hstep : processOne env st h = .fatal st') :
    env.producer.fails = true ∧ st' = st := by
  cases h with
  | producer =>
    cases hc : (st.producerLive && st.pending.isEmpty) with
    | false => simp [processOne, hc] at hstep
    | true =>
      cases hf : env.producer.fails with
      | false => simp [processOne, hc, hf] at hstep
      | true =>
        simp only [processOne, hc, hf, if_true, StepOut.fatal.injEq] at hstep
        exact ⟨rfl, hstep.symm⟩
  | task i =>
    cases hrem : removeAt st.inFlight i with
    | none => simp [processOne, hrem] at hstep
    | some p =>
      obtain ⟨w, rest⟩ := p
      cases henr : env.enrich w with
      | ok ep => simp [processOne, hrem, henr] at hstep
      | error e => simp [processOne, hrem, henr] at hstep

/-- A fatal outcome of processing completed futures implies the producer
failed. -/
theorem processList_fatal (env : SchedEnv) :
    ∀ (hs : List Handle) (st st' : SchedState),
      processList env st hs = .fatal st' → env.producer.fails = true
  | [], st, st', hstep => by simp [processList] at hstep
  | h :: hs, st, st', hstep => by
    simp only [processList] at hstep
    cases hone : processOne env st h with
    | fatal st₁ =>
      exact (processOne_fatal env st st₁ h hone).1
    | cont st₁ =>
      rw [hone] at hstep
      exact processList_fatal env hs st₁ st' hstep

/-- A fatal run implies the producer failed. -/
theorem run_fatal_fails (env : SchedEnv) :
    ∀ (sched : List Iter) (st st' : SchedState),
      runSched env sched st = .fatal st' → env.producer.fails = true
  | [], st, st', hrun => by
    simp only [runSched] at hrun
    by_cases hre : registryEmpty st <;> simp [hre] at hrun
  | it :: rest, st, st', hrun => by
    simp only [runSched] at hrun
    by_cases hre : registryEmpty st
    · simp [hre] at hrun
    · rw [if_neg hre] at hrun
      cases hstep : iterStep env st it with
      | fatal st₁ =>
        exact processList_fatal env it.done _ st₁ hstep
      | cont st₁ =>
        rw [hstep] at hrun
        exact run_fatal_fails env rest st₁ st' hrun

/-- While the producer future has a pending failure, no continuing step pops
it: the producer stays registered and the pending items only shrink. -/
theorem processList_live (env : SchedEnv) (hf : env.producer.fails = true) :
    ∀ (hs : List Handle) (st st' : SchedState),
      processList env st hs = .cont st' →
      st'.producerLive = st.producerLive ∧ st'.pending = st.pending
  | [], st, st', hstep => by
    simp only [processList, StepOut.cont.injEq] at hstep
    subst hstep
    exact ⟨rfl, rfl⟩
  | h :: hs, st, st', hstep => by
    simp only [processList] at hstep
    cases hone : processOne env st h with
    | fatal st₁ => rw [hone] at hstep; exact absurd hstep (by simp)
    | cont st₁ =>
      rw [hone] at hstep
      have hrec := processList_live env hf hs st₁ st' hstep
      have hone' : st₁.producerLive = st.producerLive ∧ st₁.pending = st.pending := by
        cases h with
        | producer =>
          cases hc : (st.producerLive && st.pending.isEmpty) with
          | false =>
            simp only [processOne, hc, Bool.false_eq_true, if_false,
              StepOut.cont.injEq] at hone
            subst hone
            exact ⟨rfl, rfl⟩
          | true => simp [processOne, hc, hf] at hone
        | task i =>
          cases hrem : removeAt st.inFlight i with
          | none =>
            simp only [processOne, hrem, StepOut.cont.injEq] at hone
            subst hone
            exact ⟨rfl, rfl⟩
          | some p =>
            obtain ⟨w, rest⟩ := p
            cases henr : env.enrich w with
            | ok ep =>
              simp only [processOne, hrem, henr, StepOut.cont.injEq] at hone
              subst hone
              exact ⟨rfl, rfl⟩
            | error e =>
              simp only [processOne, hrem, henr, StepOut.cont.injEq] at hone
              subst hone
              exact ⟨rfl, rfl⟩
      exact ⟨hrec.1.trans hone'.1, hrec.2.trans hone'.2⟩

/-- Same, lifted to a whole iteration (pending can shrink via arrivals). -/
theorem iterStep_live (env : SchedEnv) (hf : env.producer.fails = true)
    (st st' : SchedState) (it : Iter) (hstep : iterStep env st it = .cont st') :
    st'.producerLive = st.producerLive ∧ st'.pending.length ≤ st.pending.length := by
  have h := processList_live env hf it.done _ st' hstep
  refine ⟨h.1, ?_⟩
  rw [h.2]
  simp only [drainStep, arriveStep]
  exact (List.length_drop ..).le.trans (Nat.sub_le _ _)

/-- Same, lifted to a run that exhausts its schedule. -/
theorem run_incomplete_live (env : SchedEnv) (hf : env.producer.fails = true) :
    ∀ (sched : List Iter) (st st' : SchedState),
      runSched env sched st = .incomplete st' →
      st'.producerLive = st.producerLive ∧ st'.pending.length ≤ st.pending.length
  | [], st, st', hrun => by
    simp only [runSched] at hrun
    by_cases hre : registryEmpty st
    · simp [hre] at hrun
    · rw [if_neg hre] at hrun
      simp only [RunResult.incomplete.injEq] at hrun
      subst hrun
      exact ⟨rfl, Nat.le_refl _⟩
  | it :: rest, st, st', hrun => by
    simp only [runSched] at hrun
    by_cases hre : registryEmpty st
    · simp [hre] at hrun
    · rw [if_neg hre] at hrun
      cases hstep : iterStep env st it with
      | fatal st₁ => rw [hstep] at hrun; exact absurd hrun (by simp)
      | cont st₁ =>
        rw [hstep] at hrun
        have h1 := iterStep_live env hf st st₁ it hstep
        have h2 := run_incomplete_live env hf rest st₁ st' hrun
        exact ⟨h2.1.trans h1.1, h2.2.trans h1.2⟩

/-- An empty registry exits the loop at once, whatever the schedule. -/
theorem run_of_registryEmpty (env : SchedEnv) (st : SchedState)
    (h : registryEmpty st = true) :
    ∀ sched : List Iter, runSched env sched st = .completed st
  | [] => by simp [runSched, h]
  | it :: rest => by simp [runSched, h]

/-- Running a concatenated schedule runs the two parts in sequence. -/
theorem runSched_append (env : SchedEnv) :
    ∀ (s1 s2 : List Iter) (st : SchedState),
      runSched env (s1 ++ s2) st =
        match runSched env s1 st with
        | .incomplete st' => runSched env s2 st'
        | r => r
  | [], s2, st => by
    by_cases hre : registryEmpty st
    · simp only [runSched, hre, if_true, List.nil_append]
      exact run_of_registryEmpty env st hre s2
    · simp [runSched, hre]
  | it :: s1, s2, st => by
    by_cases hre : registryEmpty st
    · simp [runSched, hre]
    · simp only [List.cons_append, runSched, hre, if_false]
      cases hstep : iterStep env st it with
      | fatal st₁ => simp
      | cont st₁ => exact runSched_append env s1 s2 st₁

/-- The registry is empty exactly when the producer future is gone and no
enrichment future is outstanding. -/
theorem registryEmpty_iff (st : SchedState) :
    registryEmpty st = true ↔ st.producerLive = false ∧ st.inFlight = [] := by
  simp [registryEmpty, List.isEmpty_iff]

/-- Full characterisation of the final state of a normally-terminating run of
the scheduler loop started from the initial state. -/
theorem run_completed_final (env : SchedEnv) (sched : List Iter) (st' : SchedState)
    (hrun : runSched env sched (initState env) = .completed st') :
    (st'.processed.map Prod.fst ++ st'.failed.map Prod.fst).Perm env.producer.toEmit
    ∧ st'.producerLive = false ∧ st'.inFlight = [] ∧ st'.pending = []
    ∧ st'.queue = [] ∧ env.producer.fails = false
    ∧ (∀ p ∈ st'.processed, env.enrich p.1 = Except.ok p.2)
    ∧ (∀ p ∈ st'.failed, env.enrich p.1 = Except.error p.2)
    ∧ st'.resolved = st'.dispatched := by
  obtain ⟨hinv, hre⟩ := run_completed_inv env sched _ st' (inv_init env) hrun
  obtain ⟨hlive, hifl⟩ := (registryEmpty_iff st').1 hre
  obtain ⟨hpend, hfails⟩ := hinv.prodDone hlive
  have hperm := hinv.perm
  rw [tracked, hpend, hinv.qEmpty, hifl] at hperm
  simp only [List.nil_append] at hperm
  have hghost := hinv.ghost
  rw [hifl] at hghost
  simp only [List.length_nil, Nat.zero_add] at hghost
  exact ⟨hperm, hlive, hifl, hpend, hinv.qEmpty, hfails, hinv.procOk,
    hinv.failErr, hghost⟩

/-- A run whose producer fails can never exit the loop normally. -/
theorem fails_not_completed (env : SchedEnv) (hf : env.producer.fails = true)
    (sched : List Iter) (st' : SchedState) :
    runSched env sched (initState env) ≠ .completed st' := by
  intro hrun
  have h := run_completed_final env sched st' hrun
  rw [hf] at h
  exact absurd h.2.2.2.2.2.1 (by simp)

/-- If the producer fails, draining its completed future aborts the run: any
schedule extended by one final iteration that delivers the remaining queue
items and reports the producer future as done ends fatally. -/
theorem fails_forced_fatal (env : SchedEnv) (hf : env.producer.fails = true)
    (sched : List Iter) :
    ∃ st, runSched env
        (sched ++ [⟨env.producer.toEmit.length, [.producer]⟩])
        (initState env) = .fatal st := by
  rw [runSched_append]
  cases hr : runSched env sched (initState env) with
  | completed st' => exact absurd hr (fails_not_completed env hf sched st')
  | fatal st' => exact ⟨st', rfl⟩
  | incomplete st' =>
    have hlp := run_incomplete_live env hf sched _ st' hr
    have hlive : st'.producerLive = true := by
      rw [hlp.1]; rfl
    have hlen : st'.pending.length ≤ env.producer.toEmit.length := by
      have := hlp.2
      simpa [initState] using this
    have hre : registryEmpty st' = false := by
      simp [registryEmpty, hlive]
    have hpend : (arriveStep st' env.producer.toEmit.length).pending = [] :=
      List.drop_eq_nil_of_le hlen
    refine ⟨drainStep (arriveStep st' env.producer.toEmit.length), ?_⟩
    have hcond : ((drainStep (arriveStep st' env.producer.toEmit.length)).producerLive
        && (drainStep (arriveStep st' env.producer.toEmit.length)).pending.isEmpty) = true := by
      simp [drainStep, arriveStep, hlive, List.isEmpty_iff, List.drop_eq_nil_of_le hlen]
    simp only [runSched, hre, iterStep, processList, processOne, hcond,
      hf, if_true, Bool.false_eq_true, if_false]



/-- The loop invariant holds at every reachable state. -/
theorem reaches_inv (env : SchedEnv) (st st' : SchedState) (hinv : Inv env st)
    (hr : Reaches env st st') : Inv env st' := by
  induction hr with
  | refl => exact hinv
  | step st1 st2 it hr hre hstep ih => exact inv_iterStep env st1 st2 it ih hstep

/-! ## Discovery lemmas -/



/-- The accumulator of the discovery loop is just prepended to the items the
rest of the walk emits. -/
theorem get_episodesAux_acc (web : String → FetchOutcome) (endI : Option Nat) :
    ∀ (fuel idx : Nat) (url : Option String) (acc : List EpisodeInfo),
      get_episodesAux web endI fuel idx url acc =
        (acc ++ (get_episodesAux web endI fuel idx url []).1,
         (get_episodesAux web endI fuel idx url []).2)
  | 0, idx, url, acc => by
    cases hg : loopGuard idx endI url <;> simp [get_episodesAux, hg]
  | fuel + 1, idx, url, acc => by
    cases hg : loopGuard idx endI url with
    | false => simp [get_episodesAux, hg]
    | true =>
      cases url with
      | none => simp [get_episodesAux, hg]
      | some u =>
        cases hfetch : get_page_from_url (web u) with
        | none => simp [get_episodesAux, hg, hfetch]
        | some page =>
          cases htitle : page.title with
          | none => simp [get_episodesAux, hg, hfetch, htitle]
          | some t =>
            cases hprev : page.prevLink with
            | none =>
              simp only [get_episodesAux, hg, hfetch, htitle, hprev, if_true,
                List.nil_append]
              rw [get_episodesAux_acc web endI fuel (idx + 1) none
                    (acc ++ [EpisodeInfo.mk idx t u]),
                  get_episodesAux_acc web endI fuel (idx + 1) none [EpisodeInfo.mk idx t u]]
              simp [List.append_assoc]
            | some a =>
              cases hhref : a.href with
              | none => simp [get_episodesAux, hg, hfetch, htitle, hprev, hhref]
              | some hl =>
                simp only [get_episodesAux, hg, hfetch, htitle, hprev, hhref,
                  if_true, List.nil_append]
                rw [get_episodesAux_acc web endI fuel (idx + 1)
                      (some (base_url ++ hl)) (acc ++ [EpisodeInfo.mk idx t u]),
                    get_episodesAux_acc web endI fuel (idx + 1)
                      (some (base_url ++ hl)) [EpisodeInfo.mk idx t u]]
                simp [List.append_assoc]

/-- Discovery emits dense, strictly increasing indices: the `j`-th emitted
item has index `idx + j`. -/
theorem get_episodesAux_dense (web : String → FetchOutcome) (endI : Option Nat) :
    ∀ (fuel idx : Nat) (url : Option String) (j : Nat),
      j < ((get_episodesAux web endI fuel idx url []).1).length →
      (((get_episodesAux web endI fuel idx url []).1).getD j dummyInfo).index
        = idx + j
  | 0, idx, url, j, hj => by
    cases hg : loopGuard idx endI url <;> simp [get_episodesAux, hg] at hj
  | fuel + 1, idx, url, j, hj => by
    cases hg : loopGuard idx endI url with
    | false => simp [get_episodesAux, hg] at hj
    | true =>
      cases url with
      | none => simp [get_episodesAux, hg] at hj
      | some u =>
        cases hfetch : get_page_from_url (web u) with
        | none => simp [get_episodesAux, hg, hfetch] at hj
        | some page =>
          cases htitle : page.title with
          | none => simp [get_episodesAux, hg, hfetch, htitle] at hj
          | some t =>
            cases hprev : page.prevLink with
            | none =>
              simp only [get_episodesAux, hg, hfetch, htitle, hprev, if_true,
                List.nil_append] at hj ⊢
              rw [get_episodesAux_acc web endI fuel (idx + 1) none [EpisodeInfo.mk idx t u],
                List.singleton_append] at hj ⊢
              cases j with
              | zero => simp
              | succ j' =>
                simp only [List.getD_cons_succ]
                simp only [List.length_cons, Nat.succ_lt_succ_iff] at hj
                have := get_episodesAux_dense web endI fuel (idx + 1) none j' hj
                omega
            | some a =>
              cases hhref : a.href with
              | none =>
                simp only [get_episodesAux, hg, hfetch, htitle, hprev, hhref,
                  if_true] at hj ⊢
                cases j with
                | zero => simp
                | succ j' => simp at hj
              | some hl =>
                simp only [get_episodesAux, hg, hfetch, htitle, hprev, hhref,
                  if_true, List.nil_append] at hj ⊢
                rw [get_episodesAux_acc web endI fuel (idx + 1)
                      (some (base_url ++ hl)) [EpisodeInfo.mk idx t u],
                  List.singleton_append] at hj ⊢
                cases j with
                | zero => simp
                | succ j' =>
                  simp only [List.getD_cons_succ]
                  simp only [List.length_cons, Nat.succ_lt_succ_iff] at hj
                  have := get_episodesAux_dense web endI fuel (idx + 1)
                    (some (base_url ++ hl)) j' hj
                  omega

/-- `getLast?` of a cons with a non-empty tail. -/
theorem getLast?_cons_ne_nil {α : Type} (a : α) (l : List α) (h : l ≠ []) :
    (a :: l).getLast? = l.getLast? := by
  cases l with
  | nil => exact absurd rfl h
  | cons b t => exact List.getLast?_cons_cons

/-- A false loop guard means either the end bound is truthy and already
exceeded, or the current URL is `None`. -/
theorem loopGuard_false_term (web : String → FetchOutcome) (endI : Option Nat)
    (idx : Nat) (url : Option String) (hg : loopGuard idx endI url = false) :
    (endTruthy endI = true ∧ endI.getD 0 < idx + ([] : List EpisodeInfo).length)
    ∨ (∃ last p, ([] : List EpisodeInfo).getLast? = some last
        ∧ get_page_from_url (web last.url) = some p ∧ p.prevLink = none)
    ∨ (([] : List EpisodeInfo) = [] ∧ url = none) := by
  cases url with
  | none => exact Or.inr (Or.inr ⟨rfl, rfl⟩)
  | some u =>
    simp only [loopGuard, Option.isSome_some, Bool.and_true] at hg
    cases het : endTruthy endI with
    | false =>
      rw [het] at hg
      simp at hg
    | true =>
      rw [het] at hg
      simp only [if_true] at hg
      refine Or.inl ⟨rfl, ?_⟩
      simp only [List.length_nil, Nat.add_zero]
      have := of_decide_eq_false hg
      omega

/-- Why a normally-terminating discovery walk stopped: either the end bound
was truthy and exceeded, or the last emitted page had no previous-episode
link, or the walk reached a missing URL without emitting. -/
theorem get_episodesAux_term (web : String → FetchOutcome) (endI : Option Nat) :
    ∀ (fuel idx : Nat) (url : Option String) (items : List EpisodeInfo),
      get_episodesAux web endI fuel idx url [] = (items, .ok) →
      (endTruthy endI = true ∧ endI.getD 0 < idx + items.length)
      ∨ (∃ last p, items.getLast? = some last
          ∧ get_page_from_url (web last.url) = some p ∧ p.prevLink = none)
      ∨ (items = [] ∧ url = none) := by
  intro fuel
  induction fuel with
  | zero =>
    intro idx url items h
    cases hg : loopGuard idx endI url with
    | true => simp [get_episodesAux, hg] at h
    | false =>
      simp only [get_episodesAux, hg, Bool.false_eq_true, if_false,
        Prod.mk.injEq] at h
      obtain ⟨hit, -⟩ := h
      subst hit
      exact loopGuard_false_term web endI idx url hg
  | succ fuel ih =>
    intro idx url items h
    cases hg : loopGuard idx endI url with
    | false =>
      simp only [get_episodesAux, hg, Bool.false_eq_true, if_false,
        Prod.mk.injEq] at h
      obtain ⟨hit, -⟩ := h
      subst hit
      exact loopGuard_false_term web endI idx url hg
    | true =>
      cases url with
      | none =>
        simp only [get_episodesAux, hg, if_true, Prod.mk.injEq] at h
        exact Or.inr (Or.inr ⟨h.1.symm, rfl⟩)
      | some u =>
        cases hfetch : get_page_from_url (web u) with
        | none => simp [get_episodesAux, hg, hfetch] at h
        | some page =>
          cases htitle : page.title with
          | none => simp [get_episodesAux, hg, hfetch, htitle] at h
          | some t =>
            cases hprev : page.prevLink with
            | none =>
              simp only [get_episodesAux, hg, hfetch, htitle, hprev, if_true,
                List.nil_append] at h
              rw [get_episodesAux_acc web endI fuel (idx + 1) none
                  [EpisodeInfo.mk idx t u], List.singleton_append] at h
              injection h with h1 h2
              subst h1
              have hrec := ih (idx + 1) none
                (get_episodesAux web endI fuel (idx + 1) none []).1
                (by rw [← h2])
              rcases hrec with ⟨het, hlt⟩ | ⟨last, p, hlast, hfp, hpl⟩ | ⟨hxe, -⟩
              · refine Or.inl ⟨het, ?_⟩
                simp only [List.length_cons]
                omega
              · have hne : (get_episodesAux web endI fuel (idx + 1) none []).1 ≠ [] := by
                  intro hc
                  rw [hc] at hlast
                  simp at hlast
                refine Or.inr (Or.inl ⟨last, p, ?_, hfp, hpl⟩)
                rw [getLast?_cons_ne_nil _ _ hne]
                exact hlast
              · refine Or.inr (Or.inl ⟨EpisodeInfo.mk idx t u, page, ?_, hfetch, hprev⟩)
                rw [hxe]
                rfl
            | some a =>
              cases hhref : a.href with
              | none => simp [get_episodesAux, hg, hfetch, htitle, hprev, hhref] at h
              | some hl =>
                simp only [get_episodesAux, hg, hfetch, htitle, hprev, hhref,
                  if_true, List.nil_append] at h
                rw [get_episodesAux_acc web endI fuel (idx + 1)
                    (some (base_url ++ hl)) [EpisodeInfo.mk idx t u],
                  List.singleton_append] at h
                injection h with h1 h2
                subst h1
                have hrec := ih (idx + 1) (some (base_url ++ hl))
                  (get_episodesAux web endI fuel (idx + 1) (some (base_url ++ hl)) []).1
                  (by rw [← h2])
                rcases hrec with ⟨het, hlt⟩ | ⟨last, p, hlast, hfp, hpl⟩ | ⟨-, hcu⟩
                · refine Or.inl ⟨het, ?_⟩
                  simp only [List.length_cons]
                  omega
                · have hne : (get_episodesAux web endI fuel (idx + 1)
                      (some (base_url ++ hl)) []).1 ≠ [] := by
                    intro hc
                    rw [hc] at hlast
                    simp at hlast
                  refine Or.inr (Or.inl ⟨last, p, ?_, hfp, hpl⟩)
                  rw [getLast?_cons_ne_nil _ _ hne]
                  exact hlast
                · exact absurd hcu (by simp)

/-- Discovery depends only on the content the web serves: two webs that agree
on every URL drive the walk identically. -/
theorem get_episodesAux_congr (web1 web2 : String → FetchOutcome)
    (h : ∀ u, web1 u = web2 u) (endI : Option Nat) :
    ∀ (fuel idx : Nat) (url : Option String) (acc : List EpisodeInfo),
      get_episodesAux web1 endI fuel idx url acc
        = get_episodesAux web2 endI fuel idx url acc := by
  intro fuel
  induction fuel with
  | zero => intro idx url acc; rfl
  | succ fuel ih =>
    intro idx url acc
    cases hg : loopGuard idx endI url with
    | false => simp [get_episodesAux, hg]
    | true =>
      cases url with
      | none => simp [get_episodesAux, hg]
      | some u =>
        have hu : web1 u = web2 u := h u
        cases hfetch : get_page_from_url (web2 u) with
        | none => simp [get_episodesAux, hg, hu, hfetch]
        | some page =>
          cases htitle : page.title with
          | none => simp [get_episodesAux, hg, hu, hfetch, htitle]
          | some t =>
            cases hprev : page.prevLink with
            | none =>
              simp only [get_episodesAux, hg, hu, hfetch, htitle, hprev, if_true]
              exact ih (idx + 1) none (acc ++ [EpisodeInfo.mk idx t u])
            | some a =>
              cases hhref : a.href with
              | none =>
                simp [get_episodesAux, hg, hu, hfetch, htitle, hprev, hhref]
              | some hl =>
                simp only [get_episodesAux, hg, hu, hfetch, htitle, hprev,
                  hhref, if_true]
                exact ih (idx + 1) (some (base_url ++ hl))
                  (acc ++ [EpisodeInfo.mk idx t u])

/-! ## Retry-policy lemmas -/

/-- Characterisation of the modelled retry loop starting at attempt `k` with
`fuel` attempts allowed: it makes at most `fuel` attempts (at least one when
`fuel` is positive); every attempt before the last hit a retryable
condition; the slept delays double, starting from `backoff_factor * 2 ^ k`;
and a non-retryable first response is returned immediately, after exactly
one attempt and no sleep. -/
theorem sessionGetAux_spec (server : String → Nat → AttemptResult) (url : String) :
    ∀ (fuel k : Nat),
      (sessionGetAux server url fuel k).2.1 ≤ fuel
      ∧ (0 < fuel → 0 < (sessionGetAux server url fuel k).2.1)
      ∧ (∀ j, j + 1 < (sessionGetAux server url fuel k).2.1 →
          retryableAttempt (server url (k + j)) = true)
      ∧ (sessionGetAux server url fuel k).2.2
          = (List.range ((sessionGetAux server url fuel k).2.1 - 1)).map
              (fun j => backoff_factor * 2 ^ (k + j))
      ∧ (∀ p, server url k = .page p → retryableAttempt (.page p) = false →
          sessionGetAux server url fuel k
            = if 0 < fuel then (.page p, 1, []) else (.error, 0, [])) := by
  intro fuel
  induction fuel with
  | zero =>
    intro k
    refine ⟨Nat.le_refl 0, fun hc => absurd hc (by simp), fun j hj => ?_, rfl,
      fun p hp hr => by simp [sessionGetAux]⟩
    simp [sessionGetAux] at hj
  | succ fuel ih =>
    intro k
    cases hra : retryableAttempt (server url k) with
    | false =>
      cases ha : server url k with
      | connFail => rw [ha] at hra; exact absurd hra (by simp [retryableAttempt])
      | page p0 =>
        have hra0 : retryableAttempt (.page p0) = false := by
          rw [← ha]; exact hra
        have hunf : sessionGetAux server url (fuel + 1) k = (.page p0, 1, []) := by
          simp only [sessionGetAux, ha, hra0, Bool.false_eq_true, if_false]
        rw [hunf]
        dsimp only
        refine ⟨by omega, fun _ => Nat.one_pos, fun j hj => absurd hj (by omega),
          by simp, ?_⟩
        intro p hp hr
        injection hp with hpe
        subst hpe
        simp
    | true =>
      cases fuel with
      | zero =>
        have hunf : sessionGetAux server url 1 k = (.error, 1, []) := by
          simp only [sessionGetAux, hra, if_true]
        rw [hunf]
        dsimp only
        refine ⟨Nat.le_refl 1, fun _ => Nat.one_pos,
          fun j hj => absurd hj (by omega), by simp, ?_⟩
        intro p hp hr
        rw [hp] at hra
        rw [hr] at hra
        exact absurd hra (by simp)
      | succ fuel' =>
        obtain ⟨ih1, ih0, ih2, ih3, -⟩ := ih (k + 1)
        have hunf : sessionGetAux server url (fuel' + 1 + 1) k
            = ((sessionGetAux server url (fuel' + 1) (k + 1)).1,
               (sessionGetAux server url (fuel' + 1) (k + 1)).2.1 + 1,
               backoff_factor * 2 ^ k
                 :: (sessionGetAux server url (fuel' + 1) (k + 1)).2.2) := by
          simp only [sessionGetAux, hra, if_true]
        rw [hunf]
        dsimp only
        refine ⟨by omega, fun _ => by omega, ?_, ?_, ?_⟩
        · intro j hj
          cases j with
          | zero => simpa using hra
          | succ j' =>
            have heq : k + (j' + 1) = k + 1 + j' := by omega
            rw [heq]
            exact ih2 j' (by omega)
        · have hn : 0 < (sessionGetAux server url (fuel' + 1) (k + 1)).2.1 :=
            ih0 (by omega)
          rw [ih3]
          have hrw : (sessionGetAux server url (fuel' + 1) (k + 1)).2.1 + 1 - 1
              = ((sessionGetAux server url (fuel' + 1) (k + 1)).2.1 - 1) + 1 := by
            omega
          rw [hrw, List.range_succ_eq_map, List.map_cons, List.map_map]
          refine congrArg₂ _ (by simp) ?_
          apply List.map_congr_left
          intro j _
          simp only [Function.comp_apply]
          have heq : k + Nat.succ j = k + 1 + j := by omega
          rw [heq]
        · intro p hp hr
          rw [hp] at hra
          rw [hr] at hra
          exact absurd hra (by simp)

/-! ## Assembler and parser lemmas -/

/-- The sort of the Assembler is a permutation of its input. -/
theorem sortProcessed_perm (l : List (EpisodeInfo × EpisodeObj)) :
    (sortProcessed l).Perm l :=
  List.perm_insertionSort procLE l

/-- The sort of the Assembler is sorted by ascending index. -/
theorem sortProcessed_sorted (l : List (EpisodeInfo × EpisodeObj)) :
    List.Pairwise procLE (sortProcessed l) :=
  List.sorted_insertionSort procLE l

/-- With pairwise-distinct indices, reversing the ascending sort yields a
strictly descending index sequence. -/
theorem assemble_desc (l : List (EpisodeInfo × EpisodeObj))
    (hnd : (l.map (fun p => p.1.index)).Nodup) :
    List.Pairwise (· > ·) (((sortProcessed l).reverse).map (fun p => p.1.index)) := by
  have hperm : ((sortProcessed l).map (fun p => p.1.index)).Perm
      (l.map (fun p => p.1.index)) := (sortProcessed_perm l).map _
  have hnd' : ((sortProcessed l).map (fun p => p.1.index)).Nodup :=
    hperm.nodup_iff.2 hnd
  have hsorted : List.Pairwise (fun a b : Nat => a ≤ b)
      ((sortProcessed l).map (fun p => p.1.index)) := by
    rw [List.pairwise_map]
    exact sortProcessed_sorted l
  have hlt : List.Pairwise (fun a b : Nat => a < b)
      ((sortProcessed l).map (fun p => p.1.index)) :=
    (hsorted.and hnd').imp (fun h => lt_of_le_of_ne h.1 h.2)
  rw [List.map_reverse, List.pairwise_reverse]
  exact hlt

/-- Mapping a function of the payload over an enumerated list forgets the
enumeration. -/
theorem enumFrom_map_snd_comp {α β : Type} (n : Nat) (X : List α) (f : α → β) :
    (List.enumFrom n X).map (fun q => f q.2) = X.map f := by
  have hc : (fun q : Nat × α => f q.2) = f ∘ Prod.snd := rfl
  rw [hc, ← List.map_map, List.enumFrom_map_snd]

/-- Mapping the enumeration index over an enumerated list yields the range. -/
theorem enumFrom_map_fst_comp {α : Type} (n : Nat) (X : List α) :
    (List.enumFrom n X).map (fun q => q.1) = List.range' n X.length := by
  have hc : (fun q : Nat × α => q.1) = @Prod.fst Nat α := rfl
  rw [hc, List.enumFrom_map_fst]

/-- The indices Discovery emits are pairwise distinct (they are dense from the
start index), whatever the walk's outcome. -/
theorem get_episodes_indices_nodup (web : String → FetchOutcome) (start : Nat)
    (endI : Option Nat) (fuel : Nat) :
    (((get_episodes web start endI fuel).1).map (fun w => w.index)).Nodup := by
  have heq : ((get_episodes web start endI fuel).1).map (fun w => w.index)
      = List.range' start ((get_episodes web start endI fuel).1).length := by
    apply List.ext_getElem
    · simp
    · intro j h1 h2
      simp only [List.getElem_map, List.getElem_range']
      have hj : j < ((get_episodes web start endI fuel).1).length := by
        simpa using h1
      have hd : (((get_episodes web start endI fuel).1).getD j dummyInfo).index
          = start + j :=
        get_episodesAux_dense web endI fuel start (some (podcastUrl start)) j hj
      rw [List.getD_eq_getElem _ _ hj] at hd
      rw [hd]
      omega
  rw [heq]
  exact List.nodup_range' _ _

/-! ## Claims -/

/-- Claim C1 (amended): for every run of the scheduler loop that terminates
normally (the loop exits with an empty registry, which requires the
producer future to have completed without error), the number of items
recorded as succeeded plus the number recorded as failed equals the number
of work items the producer emitted onto the queue.  (As stated for *every*
run the claim fails: a run aborted by a producer failure drops dispatched
items from both lists, see the counterexample.) -/
theorem c1_run_accounting (env : SchedEnv) (sched : List Iter) (st : SchedState)
    (hrun : runSched env sched (initState env) = .completed st) :
    st.processed.length + st.failed.length = env.producer.toEmit.length := by
  obtain ⟨hperm, -⟩ := run_completed_final env sched st hrun
  have := hperm.length_eq
  simpa using this

/-- Witness for C1: a concrete one-item run that completes. -/
theorem c1_run_accounting_witness :
    stDone.processed.length + stDone.failed.length
      = envDone.producer.toEmit.length :=
  c1_run_accounting envDone schedDone stDone (by decide)

/-- Counterexample to C1 as frozen: a pipeline run in which Discovery emitted
two work items onto the queue, both were dispatched, and the run ends (with
the producer's fatal error) having recorded zero items as succeeded and
zero as failed. -/
theorem c1_counterexample :
    runSched envFail2 schedFail2 (initState envFail2) = .fatal stFail2
    ∧ stFail2.processed.length + stFail2.failed.length = 0
    ∧ envFail2.producer.toEmit.length = 2 := by decide

/-- Claim C2 (amended): if the producer fails after emitting its items, the
run reports a fatal error — no schedule can make the loop exit normally,
and any schedule that drains the producer's completed future aborts with
the fatal producer error.  (The original claim additionally asserted that
already-dispatched enrichment tasks are still recorded into the result
lists; the code drops any result not drained before the `raise`, see the
counterexample.) -/
theorem c2_producer_failure_fatal (env : SchedEnv)
    (hf : env.producer.fails = true) (sched : List Iter) :
    (∀ st, runSched env sched (initState env) ≠ .completed st)
    ∧ (∃ st, runSched env
        (sched ++ [⟨env.producer.toEmit.length, [.producer]⟩])
        (initState env) = .fatal st) :=
  ⟨fun st => fails_not_completed env hf sched st, fails_forced_fatal env hf sched⟩

/-- Witness for C2: the failing-producer environment can never complete. -/
theorem c2_producer_failure_fatal_witness :
    runSched envFail2 [] (initState envFail2) ≠ .completed stFail2 :=
  (c2_producer_failure_fatal envFail2 (by decide) []).1 stFail2

/-- Counterexample to C2 as frozen: the producer fails after emitting two
items; both enrichment futures are already dispatched when the producer's
exception is drained, and the run aborts with neither recorded in
`succeeded` or `failed`. -/
theorem c2_counterexample :
    runSched envFail2 schedFail2 (initState envFail2) = .fatal stFail2
    ∧ stFail2.dispatched = 2
    ∧ stFail2.processed = []
    ∧ stFail2.failed = [] := by decide

/-- Claim C3: for a run of the pipeline over a site (the producer emits what
`get_episodes` discovered) that terminates normally, the Assembler sorts
the succeeded list by work-item index ascending and appends episodes to the
document in reverse, and the resulting document order is strictly
descending in the work-item index. -/
theorem c3_assembler_descending (web : String → FetchOutcome)
    (start fuel : Nat) (endI : Option Nat) (env : SchedEnv) (sched : List Iter)
    (st : SchedState)
    (htoE : env.producer.toEmit = (get_episodes web start endI fuel).1)
    (hrun : runSched env sched (initState env) = .completed st) :
    assembleEpisodes st.processed
      = ((sortProcessed st.processed).reverse).map Prod.snd
    ∧ List.Pairwise (· > ·)
        (((sortProcessed st.processed).reverse).map (fun p => p.1.index)) := by
  refine ⟨rfl, ?_⟩
  obtain ⟨hperm, -⟩ := run_completed_final env sched st hrun
  have hnd : (env.producer.toEmit.map (fun w => w.index)).Nodup := by
    rw [htoE]
    exact get_episodes_indices_nodup web start endI fuel
  have hpermIdx : ((st.processed.map Prod.fst ++ st.failed.map Prod.fst).map
      (fun w => w.index)).Perm (env.producer.toEmit.map (fun w => w.index)) :=
    hperm.map _
  have hnd2 : ((st.processed.map Prod.fst).map (fun w => w.index)).Nodup := by
    have := hpermIdx.nodup_iff.2 hnd
    rw [List.map_append] at this
    exact this.of_append_left
  have hnd3 : (st.processed.map (fun p => p.1.index)).Nodup := by
    rw [List.map_map] at hnd2
    exact hnd2
  exact assemble_desc st.processed hnd3

/-- Witness for C3: the two-page site, both items succeeding. -/
theorem c3_assembler_descending_witness :
    assembleEpisodes stDone2.processed
      = ((sortProcessed stDone2.processed).reverse).map Prod.snd
    ∧ List.Pairwise (· > ·)
        (((sortProcessed stDone2.processed).reverse).map (fun p => p.1.index)) :=
  c3_assembler_descending webW 1 10 none envDone2 schedDone2 stDone2
    (by decide) (by decide)

/-- Claim C4 (amended): a normally-terminating discovery walk emits strictly
increasing, dense indices starting at `start` (the `j`-th emitted item has
index `start + j`), one at a time, and it terminates exactly when the end
bound is *truthy* (set and nonzero) and the next index exceeds it, or when
the last fetched page has no previous-episode link.  (As frozen the claim
fails for `endIndex = 0`: Python's `if end` treats `0` as unset, see the
counterexample.) -/
theorem c4_discovery_dense_termination (web : String → FetchOutcome)
    (start fuel : Nat) (endI : Option Nat) (items : List EpisodeInfo)
    (h : get_episodes web start endI fuel = (items, .ok)) :
    (∀ j, j < items.length → (items.getD j dummyInfo).index = start + j)
    ∧ ((endTruthy endI = true ∧ endI.getD 0 < start + items.length)
       ∨ (∃ last p, items.getLast? = some last
           ∧ get_page_from_url (web last.url) = some p ∧ p.prevLink = none)) := by
  have h' : get_episodesAux web endI fuel start (some (podcastUrl start)) []
      = (items, .ok) := h
  constructor
  · intro j hj
    have h1 : (get_episodesAux web endI fuel start (some (podcastUrl start)) []).1
        = items := congrArg Prod.fst h'
    have hd := get_episodesAux_dense web endI fuel start (some (podcastUrl start)) j
      (by rw [h1]; exact hj)
    rw [h1] at hd
    exact hd
  · have ht := get_episodesAux_term web endI fuel start (some (podcastUrl start))
      items h'
    rcases ht with h1 | h2 | ⟨-, h3⟩
    · exact Or.inl h1
    · exact Or.inr h2
    · exact absurd h3 (by simp)

/-- Witness for C4: the two-page site with no end bound. -/
theorem c4_discovery_dense_termination_witness :
    (∀ j, j < itemsW.length → (itemsW.getD j dummyInfo).index = 1 + j)
    ∧ ((endTruthy none = true ∧ (none : Option Nat).getD 0 < 1 + itemsW.length)
       ∨ (∃ last p, itemsW.getLast? = some last
           ∧ get_page_from_url (webW last.url) = some p ∧ p.prevLink = none)) :=
  c4_discovery_dense_termination webW 1 10 none itemsW (by decide)

/-- Counterexample to C4 as frozen: with `endIndex = 0` the end bound is set
and the current index `1` already exceeds it, so the claim requires
immediate termination with no emission — but the walk emits both items of
the two-page site, because `if end` treats `0` as unset. -/
theorem c4_counterexample :
    get_episodes webW 1 (some 0) 10 = (itemsW, .ok)
    ∧ (some 0 : Option Nat) ≠ none
    ∧ (some 0 : Option Nat).getD 0 < 1
    ∧ itemsW ≠ [] := by decide

/-- Claim C5: when the producer does not fail, no enrichment failure ever
aborts the scheduler loop (no schedule produces a fatal outcome), and in
every normally-terminating run each emitted item whose enrichment fails is
recorded as exactly its per-item failure record — it appears in `failed`
with its cause and never in `processed`. -/
theorem c5_item_failure_isolated (env : SchedEnv) (sched : List Iter)
    (hf : env.producer.fails = false) :
    (∀ st, runSched env sched (initState env) ≠ .fatal st)
    ∧ (∀ st, runSched env sched (initState env) = .completed st →
        ∀ w e, w ∈ env.producer.toEmit → env.enrich w = .error e →
          (w, e) ∈ st.failed ∧ ∀ ep, (w, ep) ∉ st.processed) := by
  constructor
  · intro st hrun
    have hft := run_fatal_fails env sched _ st hrun
    rw [hf] at hft
    exact absurd hft (by simp)
  · intro st hrun w e hw henr
    obtain ⟨hperm, -, -, -, -, -, hok, herr, -⟩ :=
      run_completed_final env sched st hrun
    have hwmem : w ∈ st.processed.map Prod.fst ++ st.failed.map Prod.fst :=
      hperm.mem_iff.2 hw
    have hproc : ∀ ep, (w, ep) ∉ st.processed := by
      intro ep hmem
      have hcontra := hok (w, ep) hmem
      rw [henr] at hcontra
      exact absurd hcontra (by simp)
    refine ⟨?_, hproc⟩
    rcases List.mem_append.1 hwmem with hm | hm
    · obtain ⟨p, hp, hpe⟩ := List.mem_map.1 hm
      have hcontra := hok p hp
      rw [hpe, henr] at hcontra
      exact absurd hcontra (by simp)
    · obtain ⟨p, hp, hpe⟩ := List.mem_map.1 hm
      have hperr := herr p hp
      rw [hpe, henr] at hperr
      injection hperr with he
      have hpw : p = (w, e) := Prod.ext hpe he.symm
      rw [← hpw]
      exact hp

/-- Witness for C5: a one-item run whose enrichment fails with `KeyError`;
the failure is recorded and the run completes. -/
theorem c5_item_failure_isolated_witness :
    (wA, PyErr.keyError) ∈ stErr.failed
    ∧ ∀ ep, (wA, ep) ∉ stErr.processed :=
  (c5_item_failure_isolated envErr schedErr (by decide)).2 stErr (by decide)
    wA PyErr.keyError (by decide) (by decide)

/-- Claim C6 (amended): the configured retry policy makes at most
`retry_total = 10` attempts; every attempt before the last hit one of the
retryable conditions (HTTP 429/500/502/503/504 or a connection-level
error); the backoff delays slept form the doubling sequence
`backoff_factor * 2 ^ j`; and a non-retryable first response (e.g. a 404)
is returned by the retrying session immediately after one attempt — but
the page-fetch helper then converts any such 4xx/5xx response to `None`
via `raise_for_status`, so the caller receives `None`, not a value
carrying the status code and reason phrase (see the counterexample). -/
theorem c6_retry_policy (server : String → Nat → AttemptResult) (url : String) :
    (sessionGet server url).2.1 ≤ retry_total
    ∧ (∀ j, j + 1 < (sessionGet server url).2.1 →
        retryableAttempt (server url j) = true)
    ∧ (sessionGet server url).2.2
        = (List.range ((sessionGet server url).2.1 - 1)).map
            (fun j => backoff_factor * 2 ^ j)
    ∧ (∀ p, server url 0 = .page p → retryableAttempt (.page p) = false →
        sessionGet server url = (.page p, 1, []))
    ∧ (∀ p, server url 0 = .page p → retryableAttempt (.page p) = false →
        400 ≤ p.status_code → p.status_code < 600 →
        get_page_from_url (sessionGet server url).1 = none) := by
  obtain ⟨h1, h0, h2, h3, h4⟩ := sessionGetAux_spec server url retry_total 0
  refine ⟨h1, ?_, ?_, ?_, ?_⟩
  · intro j hj
    have := h2 j hj
    simpa using this
  · simpa using h3
  · intro p hp hr
    have hres := h4 p hp hr
    rw [sessionGet, hres]
    simp [retry_total]
  · intro p hp hr hs1 hs2
    have hres := h4 p hp hr
    have h5 : (sessionGet server url).1 = .page p := by
      rw [sessionGet, hres]
      simp [retry_total]
    rw [h5]
    simp [get_page_from_url, hs1, hs2]

/-- Witness for C6: the always-503 server is retried (attempt 0 hit a
retryable status) and stays within the attempt cap. -/
theorem c6_retry_policy_witness :
    (sessionGet server503 (podcastUrl 1)).2.1 ≤ retry_total
    ∧ retryableAttempt (server503 (podcastUrl 1) 0) = true :=
  ⟨(c6_retry_policy server503 (podcastUrl 1)).1,
   (c6_retry_policy server503 (podcastUrl 1)).2.1 0 (by decide)⟩

/-- Counterexample to C6 as frozen: for an always-404 server the session
returns after a single attempt, but the page-fetch helper hands the caller
`None` — a value carrying no status code or reason phrase, and identical
to what an always-410 server produces. -/
theorem c6_counterexample :
    (sessionGet server404 (podcastUrl 1)).2.1 = 1
    ∧ get_page_from_url (sessionGet server404 (podcastUrl 1)).1 = none
    ∧ get_page_from_url (sessionGet server410 (podcastUrl 1)).1
        = get_page_from_url (sessionGet server404 (podcastUrl 1)).1 := by decide

/-- Claim C7: at every state the scheduler loop can reach, the registry's
size equals the number of task handles outstanding (the producer if still
registered, plus dispatched-but-unresolved enrichment futures); an empty
registry means the producer finished, every spawned task resolved, and no
work item is still pending or queued; the loop exits normally exactly at
an empty registry. -/
theorem c7_registry_invariant (env : SchedEnv) (st : SchedState)
    (hr : Reaches env (initState env) st) :
    registrySize st
      = (if st.producerLive then 1 else 0) + (st.dispatched - st.resolved)
    ∧ (registryEmpty st = true →
        st.producerLive = false ∧ st.resolved = st.dispatched
        ∧ st.pending = [] ∧ st.queue = [])
    ∧ (∀ sched st', runSched env sched st = .completed st' →
        registryEmpty st' = true)
    ∧ (registryEmpty st = true → ∀ sched, runSched env sched st = .completed st) := by
  have hinv := reaches_inv env (initState env) st (inv_init env) hr
  refine ⟨?_, ?_, ?_, fun hre sched => run_of_registryEmpty env st hre sched⟩
  · have := hinv.ghost
    rw [registrySize]
    omega
  · intro hre
    obtain ⟨hlive, hifl⟩ := (registryEmpty_iff st).1 hre
    obtain ⟨hpend, -⟩ := hinv.prodDone hlive
    have hg := hinv.ghost
    rw [hifl] at hg
    simp only [List.length_nil, Nat.zero_add] at hg
    exact ⟨hlive, hg, hpend, hinv.qEmpty⟩
  · intro sched st' hrun
    exact (run_completed_inv env sched st st' hinv hrun).2

/-- Witness for C7: the initial state of a concrete environment. -/
theorem c7_registry_invariant_witness :
    registrySize (initState envDone)
      = (if (initState envDone).producerLive then 1 else 0)
        + ((initState envDone).dispatched - (initState envDone).resolved)
    ∧ (registryEmpty (initState envDone) = true →
        (initState envDone).producerLive = false
        ∧ (initState envDone).resolved = (initState envDone).dispatched
        ∧ (initState envDone).pending = [] ∧ (initState envDone).queue = [])
    ∧ (∀ sched st', runSched envDone sched (initState envDone) = .completed st' →
        registryEmpty st' = true)
    ∧ (registryEmpty (initState envDone) = true →
        ∀ sched, runSched envDone sched (initState envDone)
          = .completed (initState envDone)) :=
  c7_registry_invariant envDone (initState envDone) (Reaches.refl _)

/-- Claim C8: the companion utility re-emits the feed's episode entries in
chronological order — parsing the document the generator wrote (newest
first) yields exactly the ascending-index sort of the succeeded items,
with assigned indices 1 through n in increasing order. -/
theorem c8_parse_roundtrip (l : List (EpisodeInfo × EpisodeObj)) :
    (parse_rss (feedItems (assembleEpisodes l))).map (fun e => (e.title, e.url))
      = (sortProcessed l).map (fun p => (p.2.title, p.2.link))
    ∧ (parse_rss (feedItems (assembleEpisodes l))).map (fun e => e.index)
        = List.range' 1 (sortProcessed l).length
    ∧ List.Pairwise (· < ·)
        ((parse_rss (feedItems (assembleEpisodes l))).map (fun e => e.index))
    ∧ List.Pairwise procLE (sortProcessed l) := by
  have hfeed : feedItems (assembleEpisodes l)
      = ((sortProcessed l).reverse).map (fun p => RssItem.mk p.2.title p.2.link) := by
    rw [feedItems, assembleEpisodes, List.map_map]
    rfl
  have hrev : (feedItems (assembleEpisodes l)).reverse
      = (sortProcessed l).map (fun p => RssItem.mk p.2.title p.2.link) := by
    rw [hfeed, List.map_reverse, List.reverse_reverse]
  refine ⟨?_, ?_, ?_, sortProcessed_sorted l⟩
  · rw [parse_rss, hrev, List.map_map]
    have hc := enumFrom_map_snd_comp 1
      ((sortProcessed l).map (fun p => RssItem.mk p.2.title p.2.link))
      (fun it => (it.title, it.link))
    rw [show ((fun e : ParsedEpisode => (e.title, e.url))
        ∘ (fun p : Nat × RssItem => ParsedEpisode.mk p.1 p.2.title p.2.link))
        = (fun p : Nat × RssItem => (p.2.title, p.2.link)) from rfl]
    rw [hc, List.map_map]
    rfl
  · rw [parse_rss, hrev, List.map_map]
    have hc := enumFrom_map_fst_comp 1
      ((sortProcessed l).map (fun p => RssItem.mk p.2.title p.2.link))
    rw [show ((fun e : ParsedEpisode => e.index)
        ∘ (fun p : Nat × RssItem => ParsedEpisode.mk p.1 p.2.title p.2.link))
        = (fun p : Nat × RssItem => p.1) from rfl]
    rw [hc, List.length_map]
  · rw [parse_rss, hrev, List.map_map]
    rw [show ((fun e : ParsedEpisode => e.index)
        ∘ (fun p : Nat × RssItem => ParsedEpisode.mk p.1 p.2.title p.2.link))
        = (fun p : Nat × RssItem => p.1) from rfl]
    rw [enumFrom_map_fst_comp 1]
    exact List.pairwise_lt_range' _ _

/-- Claim C9: Discovery is deterministic — over unchanged site content (two
webs agreeing on every URL) and the same bounds, two runs produce identical
sequences of work-item indices and titles (indeed identical results). -/
theorem c9_discovery_deterministic (web1 web2 : String → FetchOutcome)
    (start fuel : Nat) (endI : Option Nat) (h : ∀ u, web1 u = web2 u) :
    (get_episodes web1 start endI fuel).1.map (fun i => (i.index, i.title))
      = (get_episodes web2 start endI fuel).1.map (fun i => (i.index, i.title))
    ∧ get_episodes web1 start endI fuel = get_episodes web2 start endI fuel := by
  have heq : get_episodes web1 start endI fuel
      = get_episodes web2 start endI fuel :=
    get_episodesAux_congr web1 web2 h endI fuel start (some (podcastUrl start)) []
  exact ⟨by rw [heq], heq⟩

/-- Witness for C9: the two-page site compared with itself. -/
theorem c9_discovery_deterministic_witness :
    (get_episodes webW 1 none 10).1.map (fun i => (i.index, i.title))
      = (get_episodes webW 1 none 10).1.map (fun i => (i.index, i.title))
    ∧ get_episodes webW 1 none 10 = get_episodes webW 1 none 10 :=
  c9_discovery_deterministic webW webW 1 10 none (fun _ => rfl)

/-- Claim C10: the page-fetch helper returns `None` on every fetch error — a
connection/retry failure and any 4xx/5xx response both map to `None` — and
both Discovery and Enrichment dereference the result without a `None`
check, so a failed fetch surfaces as an `AttributeError` in the calling
task rather than as a value carrying the HTTP status. -/
theorem c10_fetch_none_dereference (web : String → FetchOutcome)
    (mediaServer : String → Option MediaInfo) (loc : Option String)
    (info : EpisodeInfo) (start fuel : Nat) (endI : Option Nat)
    (h1 : get_page_from_url (web info.url) = none)
    (h2 : get_page_from_url (web (podcastUrl start)) = none)
    (h3 : loopGuard start endI (some (podcastUrl start)) = true) :
    get_page_from_url .error = none
    ∧ (∀ p : Page, 400 ≤ p.status_code → p.status_code < 600 →
        get_page_from_url (.page p) = none)
    ∧ generate_episode web mediaServer info loc = .error .attributeError
    ∧ get_episodes web start endI (fuel + 1) = ([], .err .attributeError) := by
  refine ⟨rfl, ?_, ?_, ?_⟩
  · intro p hs1 hs2
    simp [get_page_from_url, hs1, hs2]
  · rw [generate_episode, h1]
  · rw [get_episodes, get_episodesAux]
    simp [h3, h2]

/-- Witness for C10: the dead web. -/
theorem c10_fetch_none_dereference_witness :
    get_page_from_url .error = none
    ∧ (∀ p : Page, 400 ≤ p.status_code → p.status_code < 600 →
        get_page_from_url (.page p) = none)
    ∧ generate_episode webNone mediaNone wA none = .error .attributeError
    ∧ get_episodes webNone 1 none (9 + 1) = ([], .err .attributeError) :=
  c10_fetch_none_dereference webNone mediaNone none wA 1 9 none
    (by decide) (by decide) (by decide)

end HiArchive
